import Mathlib

/-!
Verification development for the ML-Chain repository.

The repository's own files (`src/main.py`, `src/basic_demo.py`) are demo
scripts driving an embedded graph-plus-vector database engine (the
`graphmemory` package) through a narrow interface.  The engine itself is
not part of the reviewed sources, so its data model and operations are
modelled here from the specification (spec.md sections 3, 4 and 6); all
such definitions carry a doc comment starting `Modelled from the spec:`.
The pieces of logic that do live in the reviewed sources (the query text
built by `find_node` in `src/basic_demo.py`, and the JSON-failure branch
of `extract_attributes` in `src/main.py`) are embedded directly from the
source code.
-/

namespace GraphMemory

/-- Modelled from the spec: a scalar property value — "a property map from
string keys to scalar values (strings, numbers, booleans)".  Numbers are
modelled as rationals. -/
inductive Scalar where
  | s (v : String)
  | num (v : Rat)
  | b (v : Bool)
deriving DecidableEq, Repr

/-- Modelled from the spec: a property map from string keys to scalar
values, with no fixed schema. -/
abbrev Props := List (String × Scalar)

/-- Modelled from the spec: a node record — a property map and an optional
fixed-length numeric vector (the identifier is the key under which the
storage layer holds the record).  Vector components are modelled as exact
integers; the search and ordering contract is independent of the numeric
type. -/
structure Node where
  properties : Props
  vector : Option (List Int)
deriving DecidableEq, Repr

/-- Modelled from the spec: a directed, labeled, weighted edge between two
node identifiers. -/
structure Edge where
  source : Nat
  target : Nat
  relation : String
  weight : Rat
deriving DecidableEq, Repr

/-- Modelled from the spec error taxonomy (section 7): `notFound` models
`NotFound`, `referential` models `ReferentialError`, `validation` models
`ValidationError`, and `badQuery` models the unparseable-query error. -/
inductive Err where
  | notFound
  | referential
  | validation
  | badQuery
deriving DecidableEq, Repr

/-- Modelled from the spec: the whole database state — storage layer
(`nodes`, `edges`), attribute index, vector index, the configured vector
length fixed at initialization, and the next fresh node identifier
("monotonically increasing ... never reused").  The attribute index is a
list of entries `((key, value), id)`; the vector index maps identifiers to
their vectors. -/
structure GraphDB where
  vectorLength : Option Nat
  nodes : List (Nat × Node)
  edges : List Edge
  attrIndex : List ((String × Scalar) × Nat)
  vectorIndex : List (Nat × List Int)
  nextId : Nat
deriving DecidableEq, Repr

/-- Modelled from the spec: a freshly initialized database with a
configured vector length (`GraphMemory(database=..., vector_length=...)`
in `src/main.py`; no vector length in `src/basic_demo.py`). -/
def GraphDB.init (vl : Option Nat) : GraphDB :=
  ⟨vl, [], [], [], [], 0⟩

/-- Identifier lookup in a storage-layer record list. -/
def findNode (l : List (Nat × Node)) (id : Nat) : Option Node :=
  (l.find? (fun p => decide (p.1 = id))).map (fun p => p.2)

/-- Modelled from the spec: `get_node(id) -> Node | NotFound`; looks the
identifier up in the storage layer (`none` models `NotFound`). -/
def get_node (db : GraphDB) (id : Nat) : Option Node :=
  findNode db.nodes id

/-- Modelled from the spec: vector-length validation — "an optional
fixed-length numeric vector (embedding) whose length is declared once at
database initialization and enforced on every node that carries one". -/
def validVector (db : GraphDB) : Option (List Int) → Bool
  | none => true
  | some v =>
    match db.vectorLength with
    | none => true
    | some L => decide (v.length = L)

/-- Modelled from the spec: `insert_node` — validates the vector length if
a vector is provided, writes the node to the storage layer under a fresh
identifier, then updates the attribute index (one entry per property) and
the vector index; a length mismatch is a `ValidationError` and nothing is
written. -/
def insert_node (db : GraphDB) (node : Node) : Except Err (Nat × GraphDB) :=
  if validVector db node.vector then
    let id := db.nextId
    Except.ok (id,
      { db with
        nodes := (id, node) :: db.nodes
        attrIndex := node.properties.map (fun kv => (kv, id)) ++ db.attrIndex
        vectorIndex :=
          match node.vector with
          | some v => (id, v) :: db.vectorIndex
          | none => db.vectorIndex
        nextId := db.nextId + 1 })
  else Except.error Err.validation

/-- Modelled from the spec: `insert_edge` — "validates both endpoints
exist before writing"; fails with `ReferentialError` when either endpoint
is absent from the storage layer. -/
def insert_edge (db : GraphDB) (e : Edge) : Except Err GraphDB :=
  if (get_node db e.source).isSome ∧ (get_node db e.target).isSome then
    Except.ok { db with edges := db.edges ++ [e] }
  else Except.error Err.referential

/-- Matches an edge addressed by its (source, target) pair, the only
addressing the observed `delete_edge(source_id, target_id)` call uses. -/
def edgeMatches (s t : Nat) (e : Edge) : Bool :=
  decide (e.source = s) && decide (e.target = t)

/-- Modelled from the spec: `delete_edge(source, target)` — "removes the
matching edge record; signals `NotFound` if no such edge exists".  The
spec (section 9) leaves deletion of multiple same-pair edges ambiguous and
offers "delete all matching edges" as one documented policy; that policy
is adopted here. -/
def delete_edge (db : GraphDB) (s t : Nat) : Except Err GraphDB :=
  if db.edges.any (edgeMatches s t) then
    Except.ok { db with edges := db.edges.filter (fun e => !edgeMatches s t e) }
  else Except.error Err.notFound

/-- Modelled from the spec: node deletion with cascading delete — "node
removal removes incident edges and index entries"; `NotFound` when the
identifier is absent. -/
def delete_node (db : GraphDB) (id : Nat) : Except Err GraphDB :=
  if (get_node db id).isSome then
    Except.ok
      { db with
        nodes := db.nodes.filter (fun p => !decide (p.1 = id))
        edges := db.edges.filter (fun e => !(decide (e.source = id) || decide (e.target = id)))
        attrIndex := db.attrIndex.filter (fun p => !decide (p.2 = id))
        vectorIndex := db.vectorIndex.filter (fun p => !decide (p.1 = id)) }
  else Except.error Err.notFound

/-- Modelled from the spec: the attribute-index lookup
`lookup(attribute, value) -> set of node ids` (equality lookup only). -/
def lookupAttr (db : GraphDB) (k : String) (v : Scalar) : List Nat :=
  (db.attrIndex.filter (fun p => decide (p.1 = (k, v)))).map (fun p => p.2)

/-- Modelled from the spec: `nodes_by_attribute(key, value)` — "delegates
to Attribute Index, then resolves identifiers to full node records via
Storage Layer (returns empty sequence, not an error, when no matches)". -/
def nodes_by_attribute (db : GraphDB) (k : String) (v : Scalar) : List (Nat × Node) :=
  (lookupAttr db k v).filterMap (fun id => (get_node db id).map (fun n => (id, n)))

/-- Modelled from the spec: the distance metric of the vector index
("Euclidean or cosine, fixed per database instance").  Euclidean distance
is adopted, represented by its square so that it stays within exact
arithmetic (vector components are modelled as integers); the squared form
is strictly monotone in the true distance, so it induces the same
ordering, and its identity value is `0` exactly where Euclidean distance
is `0`. -/
def dist2 (a b : List Int) : Int :=
  ((List.zipWith (fun x y => (x - y) * (x - y)) a b).foldr (· + ·) 0)

/-- Modelled from the spec: the result order of the vector index —
"ascending by distance, ties broken by node identifier for determinism".
Entries are `(node id, distance)` pairs. -/
def nearOrd (a b : Nat × Int) : Prop :=
  a.2 < b.2 ∨ (a.2 = b.2 ∧ a.1 ≤ b.1)

instance : DecidableRel nearOrd := fun a b =>
  inferInstanceAs (Decidable (a.2 < b.2 ∨ (a.2 = b.2 ∧ a.1 ≤ b.1)))

instance : IsTotal (Nat × Int) nearOrd :=
  ⟨by
    intro a b
    unfold nearOrd
    rcases lt_trichotomy a.2 b.2 with h | h | h
    · exact Or.inl (Or.inl h)
    · rcases Nat.le_total a.1 b.1 with h1 | h1
      · exact Or.inl (Or.inr ⟨h, h1⟩)
      · exact Or.inr (Or.inr ⟨h.symm, h1⟩)
    · exact Or.inr (Or.inl h)⟩

instance : IsTrans (Nat × Int) nearOrd :=
  ⟨by
    intro a b c hab hbc
    unfold nearOrd at *
    rcases hab with h1 | ⟨h1, h1'⟩
    · rcases hbc with h2 | ⟨h2, _⟩
      · exact Or.inl (h1.trans h2)
      · exact Or.inl (h2 ▸ h1)
    · rcases hbc with h2 | ⟨h2, h2'⟩
      · exact Or.inl (h1 ▸ h2)
      · exact Or.inr ⟨h1.trans h2, h1'.trans h2'⟩⟩

/-- Modelled from the spec: the vector index query
`nearest(query_vector, limit) -> ordered sequence of (node id, distance)`,
ascending by distance with ties broken by node identifier, truncated to
`limit` entries ("if fewer than `limit` vectors are indexed, return all
available, not an error"); a linear scan computing exact distances. -/
def nearest (db : GraphDB) (q : List Int) (limit : Nat) : List (Nat × Int) :=
  (List.insertionSort nearOrd (db.vectorIndex.map (fun p => (p.1, dist2 q p.2)))).take limit

/-- Modelled from the spec: `nearest_nodes(vector, limit)` — "delegates to
Vector Index, resolves identifiers to node records, pairs each with its
distance".  Each result is `(id, node, distance)`. -/
def nearest_nodes (db : GraphDB) (q : List Int) (limit : Nat) : List (Nat × Node × Int) :=
  (nearest db q limit).filterMap
    (fun p => (get_node db p.1).map (fun n => (p.1, n, p.2)))

/-- Serialization of one edge, keyed by source/target/relation/weight as
the spec's serialization component describes. -/
def edgeToJson (e : Edge) : String :=
  "\x7b\"source\": " ++ toString e.source ++ ", \"target\": " ++ toString e.target ++
    ", \"relation\": \"" ++ e.relation ++ "\", \"weight\": " ++ toString e.weight ++ "\x7d"

/-- Modelled from the spec: `edges_to_json() -> string` — the serialized
edge list. -/
def edges_to_json (db : GraphDB) : String :=
  "[" ++ String.intercalate (", ") (db.edges.map edgeToJson) ++ "]"

/-- Tokens of the pattern-query language of spec section 4.5. -/
inductive Tok where
  | ident (s : String)
  | strLit (s : String)
  | lparen
  | rparen
  | colon
  | dot
  | eqSym
  | comma
deriving DecidableEq, Repr

/-- Characters allowed in identifiers of the query language. -/
def isIdentChar (c : Char) : Bool :=
  c.isAlphanum || c == '_'

/-- Modelled from the spec: the tokenizer of the query engine's
recursive-descent parser.  `none` models a `QuerySyntaxError`.  The fuel
argument bounds the recursion; each step consumes at least one character,
so fuel `length + 1` always suffices. -/
def tokenizeAux : Nat → List Char → Option (List Tok)
  | 0, _ => none
  | _ + 1, [] => some []
  | fuel + 1, c :: rest =>
    if c == ' ' then tokenizeAux fuel rest
    else if c == '(' then (tokenizeAux fuel rest).map (Tok.lparen :: ·)
    else if c == ')' then (tokenizeAux fuel rest).map (Tok.rparen :: ·)
    else if c == ':' then (tokenizeAux fuel rest).map (Tok.colon :: ·)
    else if c == '.' then (tokenizeAux fuel rest).map (Tok.dot :: ·)
    else if c == '=' then (tokenizeAux fuel rest).map (Tok.eqSym :: ·)
    else if c == ',' then (tokenizeAux fuel rest).map (Tok.comma :: ·)
    else if c == '\x27' then
      match rest.dropWhile (fun d => !(d == '\x27')) with
      | _ :: rest2 =>
        (tokenizeAux fuel rest2).map
          (Tok.strLit (rest.takeWhile (fun d => !(d == '\x27'))).asString :: ·)
      | [] => none
    else if isIdentChar c then
      (tokenizeAux fuel ((c :: rest).dropWhile isIdentChar)).map
        (Tok.ident ((c :: rest).takeWhile isIdentChar).asString :: ·)
    else none

/-- Tokenize a whole query string. -/
def tokenize (s : String) : Option (List Tok) :=
  tokenizeAux (s.length + 1) s.data

/-- Modelled from the spec: an atomic `WHERE` predicate — equality or
substring containment of a property against a literal string value. -/
inductive Atom where
  | eq (prop : String) (value : String)
  | contains (prop : String) (value : String)
deriving DecidableEq, Repr

/-- The literal data value an atomic predicate carries. -/
def Atom.value : Atom → String
  | Atom.eq _ v => v
  | Atom.contains _ v => v

/-- Modelled from the spec: one `RETURN` projection item — a bound alias
or a property of a bound alias. -/
inductive RetItem where
  | whole (a : String)
  | field (a : String) (p : String)
deriving DecidableEq, Repr

/-- Modelled from the spec: the abstract query plan produced by the
parser — `MATCH (alias[:Label]) [WHERE condition] RETURN projection`,
with the condition a conjunction (`AND`) of atoms. -/
structure Query where
  matchAlias : String
  label : Option String
  cond : List Atom
  ret : List RetItem
deriving DecidableEq, Repr

/-- Modelled from the spec: parse the `WHERE` conjunction.  Returns the
parsed atoms and the unconsumed tokens.  Fuel bounds the recursion; each
round consumes at least five tokens. -/
def parseAtoms : Nat → List Tok → Option (List Atom × List Tok)
  | 0, _ => none
  | fuel + 1, Tok.ident _ :: Tok.dot :: Tok.ident p :: Tok.eqSym :: Tok.strLit v :: rest =>
    match rest with
    | Tok.ident w :: rest2 =>
      if w == "AND" then
        (parseAtoms fuel rest2).map (fun pr => (Atom.eq p v :: pr.1, pr.2))
      else some ([Atom.eq p v], rest)
    | _ => some ([Atom.eq p v], rest)
  | fuel + 1, Tok.ident _ :: Tok.dot :: Tok.ident p :: Tok.ident w :: Tok.strLit v :: rest =>
    if w == "CONTAINS" then
      match rest with
      | Tok.ident u :: rest2 =>
        if u == "AND" then
          (parseAtoms fuel rest2).map (fun pr => (Atom.contains p v :: pr.1, pr.2))
        else some ([Atom.contains p v], rest)
      | _ => some ([Atom.contains p v], rest)
    else none
  | _, _ => none

/-- Modelled from the spec: parse the `RETURN` projection list. -/
def parseRet : Nat → List Tok → Option (List RetItem)
  | 0, _ => none
  | _ + 1, [Tok.ident a] => some [RetItem.whole a]
  | _ + 1, [Tok.ident a, Tok.dot, Tok.ident p] => some [RetItem.field a p]
  | fuel + 1, Tok.ident a :: Tok.dot :: Tok.ident p :: Tok.comma :: rest =>
    (parseRet fuel rest).map (fun items => RetItem.field a p :: items)
  | fuel + 1, Tok.ident a :: Tok.comma :: rest =>
    (parseRet fuel rest).map (fun items => RetItem.whole a :: items)
  | _, _ => none

/-- Modelled from the spec: parse the part of a query after the `MATCH`
pattern (`[WHERE condition] RETURN projection`). -/
def parseBody (a : String) (lbl : Option String) (rest : List Tok) : Option Query :=
  match rest with
  | Tok.ident w :: rest2 =>
    if w == "WHERE" then
      match parseAtoms (rest2.length + 1) rest2 with
      | some (atoms, Tok.ident r :: rest3) =>
        if r == "RETURN" then
          (parseRet (rest3.length + 1) rest3).map (fun items => ⟨a, lbl, atoms, items⟩)
        else none
      | _ => none
    else if w == "RETURN" then
      (parseRet (rest2.length + 1) rest2).map (fun items => ⟨a, lbl, [], items⟩)
    else none
  | _ => none

/-- Modelled from the spec: parse a token stream into a query plan
(`MATCH (alias[:Label]) [WHERE condition] RETURN projection`). -/
def parseToks (toks : List Tok) : Option Query :=
  match toks with
  | Tok.ident m :: Tok.lparen :: Tok.ident a :: rest =>
    if m == "MATCH" then
      match rest with
      | Tok.rparen :: rest2 => parseBody a none rest2
      | Tok.colon :: Tok.ident lbl :: Tok.rparen :: rest2 => parseBody a (some lbl) rest2
      | _ => none
    else none
  | _ => none

/-- Modelled from the spec: the full parsing pipeline of the query
engine; `none` models a `QuerySyntaxError`. -/
def parseCypher (q : String) : Option Query :=
  (tokenize q).bind parseToks

/-- Property lookup in a node's property map. -/
def lookupProp (props : Props) (k : String) : Option Scalar :=
  (props.find? (fun kv => decide (kv.1 = k))).map (fun kv => kv.2)

/-- Substring containment on character lists (the `CONTAINS` operator). -/
def containsSub (hay needle : List Char) : Bool :=
  (List.range (hay.length + 1)).any
    (fun i => decide ((hay.drop i).take needle.length = needle))

/-- Modelled from the spec: evaluate one atomic predicate against a node.
The predicate value is compared as a literal string datum. -/
def evalAtom (nd : Node) : Atom → Bool
  | Atom.eq p v => decide (lookupProp nd.properties p = some (Scalar.s v))
  | Atom.contains p v =>
    match lookupProp nd.properties p with
    | some (Scalar.s s) => containsSub s.data v.data
    | _ => false

/-- Modelled from the spec: evaluate a `WHERE` conjunction against a
node; the empty conjunction (no `WHERE` clause) accepts every node. -/
def evalCond (cond : List Atom) (nd : Node) : Bool :=
  cond.all (evalAtom nd)

/-- A value appearing in a query result record: a whole node binding or a
projected property value. -/
inductive QVal where
  | nodeVal (id : Nat) (nd : Node)
  | scalarVal (v : Option Scalar)
deriving DecidableEq, Repr

/-- Modelled from the spec: a result record — "a mapping from projection
alias to value". -/
abbrev Record := List (String × QVal)

/-- Modelled from the spec: project one matching node through the
`RETURN` items into a result record. -/
def project (q : Query) (id : Nat) (nd : Node) : Record :=
  q.ret.map (fun item =>
    match item with
    | RetItem.whole a => (a, QVal.nodeVal id nd)
    | RetItem.field a p => (a ++ "." ++ p, QVal.scalarVal (lookupProp nd.properties p)))

/-- Modelled from the spec: execute a query plan — filter the stored
nodes by the `WHERE` condition and project the matches.  The spec's node
data model carries no label field, so a `MATCH` label is parsed but does
not filter. -/
def execQuery (db : GraphDB) (q : Query) : List Record :=
  (db.nodes.filter (fun p => evalCond q.cond p.2)).map (fun p => project q p.1 p.2)

/-- Modelled from the spec: `cypher(query) -> sequence<record>`; an
unparseable query is a `QuerySyntaxError`, a valid query that matches
nothing returns an empty sequence, not an error. -/
def cypher (db : GraphDB) (q : String) : Except Err (List Record) :=
  match parseCypher q with
  | none => Except.error Err.badQuery
  | some plan => Except.ok (execQuery db plan)

/-- From `src/basic_demo.py`, `find_node` (lines 12-13): the query text is
built by string interpolation, splicing the caller-supplied name between
quote characters before handing the string to `cypher`. -/
def find_node_query (name : String) : String :=
  "MATCH (n) WHERE n.name = \x27" ++ name ++ "\x27 RETURN n"

/-- The literal data values the query engine's predicate layer receives
from a query string, in order, when the string parses. -/
def predicateValues (q : String) : Option (List String) :=
  (parseCypher q).map (fun plan => plan.cond.map Atom.value)

/-- Modelled from the spec invariants (section 3): node identifiers below
the fresh-identifier counter ("never reused"); attribute index and vector
index consistent with the storage layer's current node set — "no index
entry for a deleted node, no node missing required index entries". -/
def wellFormed (db : GraphDB) : Prop :=
  (∀ p ∈ db.nodes, p.1 < db.nextId) ∧
  (∀ q ∈ db.attrIndex, (get_node db q.2).isSome = true) ∧
  (∀ p ∈ db.vectorIndex, (get_node db p.1).isSome = true) ∧
  (∀ p ∈ db.nodes, ∀ v ∈ p.2.vector, (p.1, v) ∈ db.vectorIndex) ∧
  (∀ p ∈ db.nodes, ∀ kv ∈ p.2.properties, (kv, p.1) ∈ db.attrIndex)

instance (db : GraphDB) : Decidable (wellFormed db) :=
  inferInstanceAs (Decidable ((∀ p ∈ db.nodes, p.1 < db.nextId) ∧
    (∀ q ∈ db.attrIndex, (get_node db q.2).isSome = true) ∧
    (∀ p ∈ db.vectorIndex, (get_node db p.1).isSome = true) ∧
    (∀ p ∈ db.nodes, ∀ v ∈ p.2.vector, (p.1, v) ∈ db.vectorIndex) ∧
    (∀ p ∈ db.nodes, ∀ kv ∈ p.2.properties, (kv, p.1) ∈ db.attrIndex)))

/-- The result order of `nearest_nodes` on resolved `(id, node, distance)`
triples: ascending by distance, ties broken by node identifier. -/
def resOrd (a b : Nat × Node × Int) : Prop :=
  a.2.2 < b.2.2 ∨ (a.2.2 = b.2.2 ∧ a.1 ≤ b.1)

/-- Concrete fresh database with configured vector length 1. -/
def exDB0 : GraphDB := GraphDB.init (some 1)

/-- Concrete node carrying one property and a vector of length 1. -/
def exNode1 : Node := ⟨[(("name"), Scalar.s ("George"))], some [1]⟩

/-- Concrete second node. -/
def exNode2 : Node := ⟨[(("name"), Scalar.s ("John"))], some [0]⟩

/-- The database after inserting `exNode1` into `exDB0`. -/
def exDB1 : GraphDB :=
  ⟨some 1, [(0, exNode1)], [], [((("name"), Scalar.s ("George")), 0)], [(0, [1])], 1⟩

/-- The database after inserting `exNode2` into `exDB1`. -/
def exDB2 : GraphDB :=
  ⟨some 1, [(1, exNode2), (0, exNode1)], [],
    [((("name"), Scalar.s ("John")), 1), ((("name"), Scalar.s ("George")), 0)],
    [(1, [0]), (0, [1])], 2⟩

/-- The database after deleting node 0 from `exDB2`. -/
def exDB2del : GraphDB :=
  ⟨some 1, [(1, exNode2)], [], [((("name"), Scalar.s ("John")), 1)], [(1, [0])], 2⟩

/-- Concrete edge between the two stored nodes of `exDB2`. -/
def exEdge : Edge := ⟨1, 0, ("knows"), 1⟩

/-- Node without properties or vector, for edge round-trip examples. -/
def exBareNode : Node := ⟨[], none⟩

/-- Edge round-trip example: two bare nodes, no edges. -/
def exC6pre : GraphDB := ⟨none, [(0, exBareNode), (1, exBareNode)], [], [], [], 2⟩

/-- Edge inserted for the round-trip example. -/
def exC6e : Edge := ⟨0, 1, ("rel"), 1⟩

/-- `exC6pre` after inserting `exC6e`. -/
def exC6mid : GraphDB := ⟨none, [(0, exBareNode), (1, exBareNode)], [exC6e], [], [], 2⟩

/-- `exC6mid` after deleting the (0, 1) edge. -/
def exC6post : GraphDB := ⟨none, [(0, exBareNode), (1, exBareNode)], [], [], [], 2⟩

/-- Counterexample state for the edge round-trip: an edge between the
same (source, target) pair already exists before the insert. -/
def exC6cdb : GraphDB :=
  ⟨none, [(0, exBareNode), (1, exBareNode)], [⟨0, 1, ("a"), 1⟩], [], [], 2⟩

/-- `exC6cdb` after inserting a second (0, 1) edge. -/
def exC6cdb1 : GraphDB :=
  ⟨none, [(0, exBareNode), (1, exBareNode)], [⟨0, 1, ("a"), 1⟩, ⟨0, 1, ("b"), 2⟩], [], [], 2⟩

/-- `exC6cdb1` after `delete_edge 0 1`, which removes both matching
edges. -/
def exC6cdb2 : GraphDB := ⟨none, [(0, exBareNode), (1, exBareNode)], [], [], [], 2⟩

/-- Node carrying vector `[1]` and no properties. -/
def exC3node : Node := ⟨[], some [1]⟩

/-- Counterexample state for exact-match search: two distinct nodes carry
the same vector `[1]`. -/
def exC3db : GraphDB :=
  ⟨some 1, [(0, exC3node), (1, exC3node)], [], [], [(0, [1]), (1, [1])], 2⟩

/-- A syntactically valid query whose `WHERE` clause is unsatisfiable
(one property equal to two different literals). -/
def exUnsatQuery : String :=
  "MATCH (n) WHERE n.name = \x27a\x27 AND n.name = \x27b\x27 RETURN n"

/-- The plan `exUnsatQuery` parses to. -/
def exUnsatPlan : Query :=
  ⟨("n"), none, [Atom.eq ("name") ("a"), Atom.eq ("name") ("b")], [RetItem.whole ("n")]⟩

/-- The injection payload for the `find_node` query construction: a name
value containing a quote character. -/
def exPayload : String := "x\x27 AND n.title = \x27y"

end GraphMemory

namespace MainPy

/-- The property-map type `extract_attributes` returns: string keys bound
to string values. -/
abbrev Attrs := List (String × String)

/-- From `src/main.py`, `extract_attributes` (lines 33-39): the fixed
mapping returned when the model response fails to parse as JSON. -/
def defaultAttributes : Attrs :=
  [("name", "Unknown"), ("title", "Unknown"), ("country", "Unknown"),
   ("term_start", "Unknown"), ("term_end", "Unknown")]

/-- From `src/main.py`, `extract_attributes` (lines 27-39): the result of
`json.loads` on the model response is abstracted as an `Option` (the
Python standard library is outside the reviewed sources); `some` is a
successful parse, `none` is the `json.JSONDecodeError` case, which the
function catches, returning `defaultAttributes` instead of raising. -/
def extract_attributes (parsed : Option Attrs) : Attrs :=
  match parsed with
  | some attrs => attrs
  | none => defaultAttributes

end MainPy

namespace GraphMemory

theorem findNode_cons_self (i : Nat) (n : Node) (l : List (Nat × Node)) :
    findNode ((i, n) :: l) i = some n := by
  simp [findNode, List.find?_cons_of_pos]

theorem findNode_cons_ne (i j : Nat) (n : Node) (l : List (Nat × Node)) (h : j ≠ i) :
    findNode ((i, n) :: l) j = findNode l j := by
  simp only [findNode]
  rw [List.find?_cons_of_neg]
  simp [Ne.symm h]

theorem mem_of_findNode (l : List (Nat × Node)) (j : Nat) (n : Node)
    (h : findNode l j = some n) : (j, n) ∈ l := by
  simp only [findNode, Option.map_eq_some'] at h
  obtain ⟨p, hp, hpn⟩ := h
  have hmem := List.mem_of_find?_eq_some hp
  have hpred := List.find?_some hp
  simp only [decide_eq_true_eq] at hpred
  obtain ⟨p1, p2⟩ := p
  cases hpred
  cases hpn
  exact hmem

theorem findNode_isSome_of_mem (l : List (Nat × Node)) (j : Nat) (n : Node)
    (h : (j, n) ∈ l) : (findNode l j).isSome = true := by
  simp only [findNode, Option.isSome_map']
  rw [List.find?_isSome]
  exact ⟨(j, n), h, by simp⟩

theorem findNode_filter_self (l : List (Nat × Node)) (id : Nat) :
    findNode (l.filter (fun p => !decide (p.1 = id))) id = none := by
  simp only [findNode, Option.map_eq_none', List.find?_eq_none]
  intro p hp
  have := (List.mem_filter.mp hp).2
  simpa using this

theorem findNode_filter_ne (l : List (Nat × Node)) (id j : Nat) (h : j ≠ id) :
    findNode (l.filter (fun p => !decide (p.1 = id))) j = findNode l j := by
  induction l with
  | nil => rfl
  | cons p t ih =>
    by_cases hp : p.1 = id
    · have h1 : (p :: t).filter (fun p => !decide (p.1 = id)) =
          t.filter (fun p => !decide (p.1 = id)) := by
        simp [List.filter_cons, hp]
      rw [h1, ih]
      obtain ⟨p1, p2⟩ := p
      simp only at hp
      rw [findNode_cons_ne p1 j p2 t (hp ▸ h)]
    · have h1 : (p :: t).filter (fun p => !decide (p.1 = id)) =
          p :: t.filter (fun p => !decide (p.1 = id)) := by
        simp [List.filter_cons, hp]
      rw [h1]
      obtain ⟨p1, p2⟩ := p
      by_cases hj : j = p1
      · subst hj
        rw [findNode_cons_self, findNode_cons_self]
      · rw [findNode_cons_ne p1 j p2 _ hj, findNode_cons_ne p1 j p2 t hj, ih]

/-- Claim C1: for every valid property map `p`, inserting a node with
properties `p` via `insert_node` and then calling `get_node` on the
returned identifier yields a node whose property map equals `p`
(insert/get round-trip). -/
theorem C1_insert_get_round_trip (db : GraphDB) (p : Props) (vec : Option (List Int))
    (id : Nat) (db' : GraphDB)
    (h : insert_node db ⟨p, vec⟩ = Except.ok (id, db')) :
    (get_node db' id).map Node.properties = some p := by
  unfold insert_node at h
  by_cases hv : validVector db (Node.mk p vec).vector
  · rw [if_pos hv] at h
    simp only [Except.ok.injEq, Prod.mk.injEq] at h
    obtain ⟨h1, h2⟩ := h
    subst h1
    subst h2
    simp only [get_node]
    rw [findNode_cons_self]
    rfl
  · rw [if_neg hv] at h
    cases h

/-- Witness for C1 on a concrete database and node. -/
theorem C1_insert_get_round_trip_witness :
    (get_node exDB1 0).map Node.properties = some ([(("name"), Scalar.s ("George"))]) :=
  C1_insert_get_round_trip exDB0 ([(("name"), Scalar.s ("George"))]) (some [1]) 0 exDB1 rfl

end GraphMemory

namespace MainPy

/-- Claim C10: for every model response whose content is not valid JSON,
`extract_attributes` does not raise: it returns the fixed mapping binding
the keys name, title, country, term_start and term_end each to the string
"Unknown". -/
theorem C10_extract_attributes_default (parsed : Option Attrs) (h : parsed = none) :
    extract_attributes parsed = defaultAttributes ∧
    (extract_attributes parsed).map Prod.fst =
      ["name", "title", "country", "term_start", "term_end"] ∧
    (∀ kv ∈ extract_attributes parsed, kv.2 = "Unknown") := by
  subst h
  refine ⟨rfl, rfl, ?_⟩
  decide

/-- Witness for C10 at the failed-parse input. -/
theorem C10_extract_attributes_default_witness :
    extract_attributes none = defaultAttributes ∧
    (extract_attributes none).map Prod.fst =
      ["name", "title", "country", "term_start", "term_end"] ∧
    (∀ kv ∈ extract_attributes none, kv.2 = "Unknown") :=
  C10_extract_attributes_default none rfl

end MainPy

namespace GraphMemory

/-- Claim C5: `insert_edge` fails with `ReferentialError` exactly when the
source or target identifier refers to a node absent from the storage
layer (never inserted, or deleted); when both endpoints exist the edge is
inserted successfully (appended to the edge list). -/
theorem C5_insert_edge_referential (db : GraphDB) (e : Edge) :
    (insert_edge db e = Except.error Err.referential ↔
      (get_node db e.source = none ∨ get_node db e.target = none)) ∧
    (get_node db e.source ≠ none → get_node db e.target ≠ none →
      insert_edge db e = Except.ok { db with edges := db.edges ++ [e] }) := by
  unfold insert_edge
  by_cases h1 : get_node db e.source = none <;>
    by_cases h2 : get_node db e.target = none <;>
      simp [h1, h2, Option.isSome_iff_ne_none]

/-- Witness for C5 on a concrete database and edge. -/
theorem C5_insert_edge_referential_witness :
    insert_edge exDB2 exEdge = Except.ok { exDB2 with edges := exDB2.edges ++ [exEdge] } :=
  (C5_insert_edge_referential exDB2 exEdge).2 (by decide) (by decide)

/-- Claim C9: on a database configured with a vector length, `insert_node`
with a vector succeeds exactly when the vector has the configured length;
a mismatch is rejected as a `ValidationError` (so nothing is stored), and
success preserves the invariant that every stored node's vector has the
configured length. -/
theorem C9_vector_length_validation (db : GraphDB) (L : Nat) (nd : Node) (v : List Int)
    (hL : db.vectorLength = some L) (hv : nd.vector = some v) :
    ((∃ id db', insert_node db nd = Except.ok (id, db')) ↔ v.length = L) ∧
    (v.length ≠ L → insert_node db nd = Except.error Err.validation) ∧
    (∀ id db', insert_node db nd = Except.ok (id, db') →
      (∀ p ∈ db.nodes, ∀ w ∈ p.2.vector, w.length = L) →
      ∀ p ∈ db'.nodes, ∀ w ∈ p.2.vector, w.length = L) := by
  have hvv : validVector db nd.vector = decide (v.length = L) := by
    rw [hv]
    unfold validVector
    rw [hL]
  refine ⟨⟨?_, ?_⟩, ?_, ?_⟩
  · rintro ⟨id, db', h⟩
    unfold insert_node at h
    rw [hvv] at h
    by_cases hlen : v.length = L
    · exact hlen
    · rw [decide_eq_false hlen] at h
      cases h
  · intro hlen
    refine ⟨db.nextId,
      { db with
        nodes := (db.nextId, nd) :: db.nodes
        attrIndex := nd.properties.map (fun kv => (kv, db.nextId)) ++ db.attrIndex
        vectorIndex :=
          match nd.vector with
          | some w => (db.nextId, w) :: db.vectorIndex
          | none => db.vectorIndex
        nextId := db.nextId + 1 }, ?_⟩
    unfold insert_node
    rw [hvv, decide_eq_true hlen]
    rfl
  · intro hlen
    unfold insert_node
    rw [hvv, decide_eq_false hlen]
    rfl
  · intro id db' h hinv
    unfold insert_node at h
    rw [hvv] at h
    by_cases hlen : v.length = L
    · rw [decide_eq_true hlen] at h
      simp only [if_true, Except.ok.injEq, Prod.mk.injEq] at h
      obtain ⟨h1, h2⟩ := h
      subst h2
      intro p hp w hw
      simp only [List.mem_cons] at hp
      rcases hp with hp | hp
      · subst hp
        simp only [hv, Option.mem_def, Option.some.injEq] at hw
        subst hw
        exact hlen
      · exact hinv p hp w hw
    · rw [decide_eq_false hlen] at h
      cases h

/-- Witness for C9: rejecting a length-2 vector on a length-1 database. -/
theorem C9_vector_length_validation_witness :
    insert_node exDB2 ⟨[], some [1, 1]⟩ = Except.error Err.validation :=
  (C9_vector_length_validation exDB2 1 ⟨[], some [1, 1]⟩ [1, 1] rfl rfl).2.1 (by decide)

/-- Claim C7: a syntactically valid query whose `WHERE` clause matches no
stored entity returns an empty result sequence from `cypher`, never an
error. -/
theorem C7_unsat_where_empty (db : GraphDB) (q : String) (plan : Query)
    (hp : parseCypher q = some plan)
    (hm : ∀ p ∈ db.nodes, evalCond plan.cond p.2 = false) :
    cypher db q = Except.ok [] := by
  have hexec : execQuery db plan = [] := by
    unfold execQuery
    have hnil : db.nodes.filter (fun p => evalCond plan.cond p.2) = [] := by
      rw [List.filter_eq_nil_iff]
      intro p hp'
      simp [hm p hp']
    rw [hnil]
    rfl
  unfold cypher
  rw [hp]
  show Except.ok (execQuery db plan) = Except.ok []
  rw [hexec]

/-- Witness for C7: a query requiring one property to equal two different
literals matches nothing in a populated concrete database. -/
theorem C7_unsat_where_empty_witness :
    cypher exDB2 exUnsatQuery = Except.ok [] :=
  C7_unsat_where_empty exDB2 exUnsatQuery exUnsatPlan rfl (by decide)

/-- Claim C8 evaluation at the failing input: `find_node` in
`src/basic_demo.py` splices the caller-supplied name into the query text,
so for a name containing quote characters the query engine's predicate
layer receives values different from the supplied name — the value
`exPayload` is re-parsed into two predicate atoms with values "x" and
"y", while a plain name is received verbatim. -/
theorem C8_injection_evaluation :
    predicateValues (find_node_query exPayload) = some (["x", "y"]) ∧
    predicateValues (find_node_query exPayload) ≠ some ([exPayload]) ∧
    predicateValues (find_node_query ("Washington")) = some (["Washington"]) := by
  refine ⟨by decide, by decide, by decide⟩

/-- Claim C6 counterexample: in a state already holding an edge between
the pair (0, 1), inserting another (0, 1) edge and immediately deleting
by the pair removes both, so `edges_to_json` differs from its value
before the insert. -/
theorem C6_counterexample :
    insert_edge exC6cdb ⟨0, 1, ("b"), 2⟩ = Except.ok exC6cdb1 ∧
    delete_edge exC6cdb1 0 1 = Except.ok exC6cdb2 ∧
    edges_to_json exC6cdb2 ≠ edges_to_json exC6cdb := by
  refine ⟨rfl, rfl, by decide⟩

/-- Claim C6 (amended): when no edge with the same (source, target) pair
exists beforehand, inserting an edge and then immediately deleting it by
that pair leaves `edges_to_json` unchanged from before the insert. -/
theorem C6_edge_round_trip (db : GraphDB) (e : Edge) (db1 db2 : GraphDB)
    (hpre : ∀ f ∈ db.edges, edgeMatches e.source e.target f = false)
    (h1 : insert_edge db e = Except.ok db1)
    (h2 : delete_edge db1 e.source e.target = Except.ok db2) :
    edges_to_json db2 = edges_to_json db := by
  have hself : edgeMatches e.source e.target e = true := by
    simp [edgeMatches]
  unfold insert_edge at h1
  by_cases hc : (get_node db e.source).isSome ∧ (get_node db e.target).isSome
  · rw [if_pos hc] at h1
    simp only [Except.ok.injEq] at h1
    subst h1
    unfold delete_edge at h2
    have hany : ((db.edges ++ [e]).any (edgeMatches e.source e.target)) = true := by
      simp [List.any_append, hself]
    split at h2
    · simp only [Except.ok.injEq] at h2
      subst h2
      have hfil : (db.edges ++ [e]).filter (fun f => !edgeMatches e.source e.target f) =
          db.edges := by
        rw [List.filter_append]
        have h3 : db.edges.filter (fun f => !edgeMatches e.source e.target f) = db.edges := by
          rw [List.filter_eq_self]
          intro f hf
          simp [hpre f hf]
        have h4 : [e].filter (fun f => !edgeMatches e.source e.target f) = [] := by
          simp [List.filter_cons, hself]
        rw [h3, h4, List.append_nil]
      unfold edges_to_json
      rw [hfil]
    · next hq => exact absurd (by simpa using hany) (by simpa using hq)
  · rw [if_neg hc] at h1
    cases h1

/-- Witness for C6 (amended) on a concrete state with no prior edge. -/
theorem C6_edge_round_trip_witness :
    edges_to_json exC6post = edges_to_json exC6pre :=
  C6_edge_round_trip exC6pre exC6e exC6mid exC6post (by decide) rfl rfl

end GraphMemory

namespace GraphMemory

theorem wellFormed_edges_update (db : GraphDB) (es : List Edge) (hwf : wellFormed db) :
    wellFormed { db with edges := es } := by
  obtain ⟨wf1, wf2, wf3, wf4, wf5⟩ := hwf
  exact ⟨wf1, wf2, wf3, wf4, wf5⟩

theorem wellFormed_insert_node (db : GraphDB) (hwf : wellFormed db) (nd : Node)
    (id : Nat) (db' : GraphDB) (h : insert_node db nd = Except.ok (id, db')) :
    wellFormed db' := by
  obtain ⟨wf1, wf2, wf3, wf4, wf5⟩ := hwf
  unfold insert_node at h
  by_cases hv : validVector db nd.vector
  · rw [if_pos hv] at h
    simp only [Except.ok.injEq, Prod.mk.injEq] at h
    obtain ⟨hid, hdb⟩ := h
    subst hid
    subst hdb
    have hlt : ∀ j m, findNode db.nodes j = some m → j < db.nextId := by
      intro j m hm
      exact wf1 (j, m) (mem_of_findNode db.nodes j m hm)
    have hkeep : ∀ j, (findNode db.nodes j).isSome = true →
        (findNode ((db.nextId, nd) :: db.nodes) j).isSome = true := by
      intro j hj
      obtain ⟨m, hm⟩ := Option.isSome_iff_exists.mp hj
      have hne : j ≠ db.nextId := Nat.ne_of_lt (hlt j m hm)
      rw [findNode_cons_ne _ _ _ _ hne]
      exact hj
    cases hvec : nd.vector with
    | some w =>
      simp only [hvec]
      refine ⟨?_, ?_, ?_, ?_, ?_⟩
      · intro p hp
        rcases List.mem_cons.mp hp with hp | hp
        · subst hp
          exact Nat.lt_succ_self _
        · exact Nat.lt_succ_of_lt (wf1 p hp)
      · intro q hq
        rcases List.mem_append.mp hq with hq | hq
        · obtain ⟨kv, _, hkv2⟩ := List.mem_map.mp hq
          subst hkv2
          simp only [get_node]
          rw [findNode_cons_self]
          rfl
        · exact hkeep q.2 (wf2 q hq)
      · intro p hp
        rcases List.mem_cons.mp hp with hp | hp
        · subst hp
          simp only [get_node]
          rw [findNode_cons_self]
          rfl
        · exact hkeep p.1 (wf3 p hp)
      · intro p hp v hvmem
        rcases List.mem_cons.mp hp with hp | hp
        · subst hp
          simp only [hvec, Option.mem_def, Option.some.injEq] at hvmem
          subst hvmem
          exact List.mem_cons_self _ _
        · exact List.mem_cons_of_mem _ (wf4 p hp v hvmem)
      · intro p hp kv hkv
        rcases List.mem_cons.mp hp with hp | hp
        · subst hp
          exact List.mem_append_left _ (List.mem_map.mpr ⟨kv, hkv, rfl⟩)
        · exact List.mem_append_right _ (wf5 p hp kv hkv)
    | none =>
      simp only [hvec]
      refine ⟨?_, ?_, ?_, ?_, ?_⟩
      · intro p hp
        rcases List.mem_cons.mp hp with hp | hp
        · subst hp
          exact Nat.lt_succ_self _
        · exact Nat.lt_succ_of_lt (wf1 p hp)
      · intro q hq
        rcases List.mem_append.mp hq with hq | hq
        · obtain ⟨kv, _, hkv2⟩ := List.mem_map.mp hq
          subst hkv2
          simp only [get_node]
          rw [findNode_cons_self]
          rfl
        · exact hkeep q.2 (wf2 q hq)
      · intro p hp
        exact hkeep p.1 (wf3 p hp)
      · intro p hp v hvmem
        rcases List.mem_cons.mp hp with hp | hp
        · subst hp
          simp only [hvec] at hvmem
          cases hvmem
        · exact wf4 p hp v hvmem
      · intro p hp kv hkv
        rcases List.mem_cons.mp hp with hp | hp
        · subst hp
          exact List.mem_append_left _ (List.mem_map.mpr ⟨kv, hkv, rfl⟩)
        · exact List.mem_append_right _ (wf5 p hp kv hkv)
  · rw [if_neg hv] at h
    cases h

theorem wellFormed_delete_node (db : GraphDB) (hwf : wellFormed db) (id : Nat)
    (db' : GraphDB) (h : delete_node db id = Except.ok db') : wellFormed db' := by
  obtain ⟨wf1, wf2, wf3, wf4, wf5⟩ := hwf
  unfold delete_node at h
  split at h
  · simp only [Except.ok.injEq] at h
    subst h
    refine ⟨?_, ?_, ?_, ?_, ?_⟩
    · intro p hp
      exact wf1 p (List.mem_filter.mp hp).1
    · intro q hq
      have hq' := List.mem_filter.mp hq
      have hne : q.2 ≠ id := by simpa using hq'.2
      simp only [get_node]
      rw [findNode_filter_ne _ _ _ hne]
      exact wf2 q hq'.1
    · intro p hp
      have hp' := List.mem_filter.mp hp
      have hne : p.1 ≠ id := by simpa using hp'.2
      simp only [get_node]
      rw [findNode_filter_ne _ _ _ hne]
      exact wf3 p hp'.1
    · intro p hp v hv
      have hp' := List.mem_filter.mp hp
      refine List.mem_filter.mpr ⟨wf4 p hp'.1 v hv, hp'.2⟩
    · intro p hp kv hkv
      have hp' := List.mem_filter.mp hp
      refine List.mem_filter.mpr ⟨wf5 p hp'.1 kv hkv, ?_⟩
      simpa using (by simpa using hp'.2 : p.1 ≠ id)
  · cases h

theorem get_node_delete_self (db : GraphDB) (id : Nat) (db' : GraphDB)
    (h : delete_node db id = Except.ok db') : get_node db' id = none := by
  unfold delete_node at h
  split at h
  · simp only [Except.ok.injEq] at h
    subst h
    simp only [get_node]
    exact findNode_filter_self db.nodes id
  · cases h

theorem deleted_not_in_results (db : GraphDB) (id : Nat) (db' : GraphDB)
    (h : delete_node db id = Except.ok db') :
    (∀ k v, ∀ x ∈ nodes_by_attribute db' k v, x.1 ≠ id) ∧
    (∀ q lim, ∀ x ∈ nearest_nodes db' q lim, x.1 ≠ id) := by
  have hnone := get_node_delete_self db id db' h
  constructor
  · intro k v x hx heq
    unfold nodes_by_attribute at hx
    rw [List.mem_filterMap] at hx
    obtain ⟨j, _, hjx⟩ := hx
    rw [Option.map_eq_some'] at hjx
    obtain ⟨n, hn, hx'⟩ := hjx
    have hj : j = id := by
      rw [← hx'] at heq
      exact heq
    rw [hj, hnone] at hn
    cases hn
  · intro q lim x hx heq
    unfold nearest_nodes at hx
    rw [List.mem_filterMap] at hx
    obtain ⟨p, _, hpx⟩ := hx
    rw [Option.map_eq_some'] at hpx
    obtain ⟨n, hn, hx'⟩ := hpx
    have hj : p.1 = id := by
      rw [← hx'] at heq
      exact heq
    rw [hj, hnone] at hn
    cases hn

/-- Claim C2: the attribute index and the vector index hold no entry for
a node absent from the storage layer (and no stored node misses its
required index entries); this consistency is preserved by every mutating
operation, and after a node is deleted it appears in no
`nodes_by_attribute` result and no `nearest_nodes` result for any
query. -/
theorem C2_index_storage_consistency (db : GraphDB) (hwf : wellFormed db) :
    (∀ nd id db', insert_node db nd = Except.ok (id, db') → wellFormed db') ∧
    (∀ e db', insert_edge db e = Except.ok db' → wellFormed db') ∧
    (∀ s t db', delete_edge db s t = Except.ok db' → wellFormed db') ∧
    (∀ id db', delete_node db id = Except.ok db' →
      wellFormed db' ∧
      (∀ k v, ∀ x ∈ nodes_by_attribute db' k v, x.1 ≠ id) ∧
      (∀ q lim, ∀ x ∈ nearest_nodes db' q lim, x.1 ≠ id)) := by
  refine ⟨?_, ?_, ?_, ?_⟩
  · intro nd id db' h
    exact wellFormed_insert_node db hwf nd id db' h
  · intro e db' h
    unfold insert_edge at h
    split at h
    · simp only [Except.ok.injEq] at h
      subst h
      exact wellFormed_edges_update db _ hwf
    · cases h
  · intro s t db' h
    unfold delete_edge at h
    split at h
    · simp only [Except.ok.injEq] at h
      subst h
      exact wellFormed_edges_update db _ hwf
    · cases h
  · intro id db' h
    exact ⟨wellFormed_delete_node db hwf id db' h,
      (deleted_not_in_results db id db' h).1,
      (deleted_not_in_results db id db' h).2⟩

/-- Witness for C2: deleting node 0 from a concrete two-node database
preserves the invariant and removes the node from all query results. -/
theorem C2_index_storage_consistency_witness :
    wellFormed exDB2del ∧
    (∀ k v, ∀ x ∈ nodes_by_attribute exDB2del k v, x.1 ≠ 0) ∧
    (∀ q lim, ∀ x ∈ nearest_nodes exDB2del q lim, x.1 ≠ 0) :=
  (C2_index_storage_consistency exDB2 (by decide)).2.2.2 0 exDB2del rfl

end GraphMemory

namespace GraphMemory

theorem dist2_self (v : List Int) : dist2 v v = 0 := by
  induction v with
  | nil => rfl
  | cons x t ih =>
    unfold dist2 at ih ⊢
    simp only [List.zipWith_cons_cons, List.foldr_cons]
    rw [ih]
    simp [sub_self]

theorem dist2_nonneg (a b : List Int) : 0 ≤ dist2 a b := by
  induction a generalizing b with
  | nil => simp [dist2]
  | cons x t ih =>
    cases b with
    | nil => simp [dist2]
    | cons y u =>
      unfold dist2
      simp only [List.zipWith_cons_cons, List.foldr_cons]
      have h2 : 0 ≤ dist2 t u := ih u
      unfold dist2 at h2
      exact add_nonneg (mul_self_nonneg _) h2

theorem nearOrd_antisymm (a b : Nat × Int) (h1 : nearOrd a b) (h2 : nearOrd b a) :
    a = b := by
  obtain ⟨a1, a2⟩ := a
  obtain ⟨b1, b2⟩ := b
  unfold nearOrd at h1 h2
  simp only at h1 h2
  rcases h1 with h1 | ⟨h1, h1'⟩
  · rcases h2 with h2 | ⟨h2, _⟩
    · exact absurd h2 (lt_asymm h1)
    · exact absurd h1 (by rw [h2]; exact lt_irrefl _)
  · rcases h2 with h2 | ⟨h2, h2'⟩
    · exact absurd h2 (by rw [h1]; exact lt_irrefl _)
    · rw [Nat.le_antisymm h1' h2', h1]

theorem pairwise_filterMap_rel {α β : Type} (f : α → Option β) (r : α → α → Prop)
    (w : β → β → Prop)
    (hf : ∀ a b x y, r a b → f a = some x → f b = some y → w x y) :
    ∀ l : List α, List.Pairwise r l → List.Pairwise w (l.filterMap f) := by
  intro l
  induction l with
  | nil =>
    intro _
    simp
  | cons a t ih =>
    intro hp
    rw [List.pairwise_cons] at hp
    obtain ⟨ha, ht⟩ := hp
    rw [List.filterMap_cons]
    cases hfa : f a with
    | none => exact ih ht
    | some x =>
      rw [List.pairwise_cons]
      refine ⟨?_, ih ht⟩
      intro y hy
      rw [List.mem_filterMap] at hy
      obtain ⟨b, hb, hfb⟩ := hy
      exact hf a b x y (ha b hb) hfa hfb

theorem length_filterMap_all_some {α β : Type} (f : α → Option β) :
    ∀ l : List α, (∀ a ∈ l, (f a).isSome = true) → (l.filterMap f).length = l.length := by
  intro l
  induction l with
  | nil =>
    intro _
    rfl
  | cons a t ih =>
    intro h
    rw [List.filterMap_cons]
    cases hfa : f a with
    | none =>
      exact absurd (h a (List.mem_cons_self a t)) (by simp [hfa])
    | some x =>
      simp only [List.length_cons]
      rw [ih (fun b hb => h b (List.mem_cons_of_mem _ hb))]

end GraphMemory

namespace GraphMemory

/-- Claim C3 counterexample: when two distinct stored nodes carry the
same vector, the tie-break by node identifier makes the smaller
identifier come first, so the claim — that each node carrying `v` is
itself returned first by `nearest_nodes(v, limit)` — fails for the node
with the larger identifier (node 1 here): node 0 is returned first. -/
theorem C3_counterexample :
    get_node exC3db 1 = some exC3node ∧
    exC3node.vector = some [1] ∧
    (nearest_nodes exC3db [1] 2).head? = some (0, exC3node, 0) ∧
    ¬ (nearest_nodes exC3db [1] 2).head? = some (1, exC3node, 0) := by
  refine ⟨rfl, rfl, by decide, by decide⟩

/-- Claim C3 (amended): for every stored node carrying vector `v` and
indexed under it, `nearest_nodes(v, limit)` with `limit ≥ 1` returns as
its first element a node at distance `0` (the metric's identity value) —
unconditionally, given the spec's always-holding index-consistency
invariant (every indexed identifier resolves in the storage layer); and
that first element is the queried node itself whenever no other indexed
entry at distance `0` from `v` has a smaller identifier. -/
theorem C3_nearest_exact_match (db : GraphDB) (id : Nat) (nd : Node) (v : List Int)
    (limit : Nat)
    (hn : get_node db id = some nd)
    (_hv : nd.vector = some v)
    (hidx : (id, v) ∈ db.vectorIndex)
    (hres : ∀ p ∈ db.vectorIndex, (get_node db p.1).isSome = true)
    (hlim : 1 ≤ limit) :
    (∃ j m, (nearest_nodes db v limit).head? = some (j, m, 0)) ∧
    ((∀ p ∈ db.vectorIndex, dist2 v p.2 = 0 → id ≤ p.1) →
      (nearest_nodes db v limit).head? = some (id, nd, 0)) := by
  have hlmem : (id, (0 : Int)) ∈ db.vectorIndex.map (fun p => (p.1, dist2 v p.2)) :=
    List.mem_map.mpr ⟨(id, v), hidx, by rw [dist2_self]⟩
  have hs := List.sorted_insertionSort nearOrd
    (db.vectorIndex.map (fun p => (p.1, dist2 v p.2)))
  have hmems : (id, (0 : Int)) ∈
      List.insertionSort nearOrd (db.vectorIndex.map (fun p => (p.1, dist2 v p.2))) :=
    (List.mem_insertionSort nearOrd).mpr hlmem
  obtain ⟨m, rfl⟩ : ∃ m, limit = m + 1 :=
    ⟨limit - 1, (Nat.succ_pred_eq_of_pos hlim).symm⟩
  unfold nearest_nodes nearest
  cases hsort : List.insertionSort nearOrd
      (db.vectorIndex.map (fun p => (p.1, dist2 v p.2))) with
  | nil =>
    rw [hsort] at hmems
    cases hmems
  | cons x xs =>
    rw [hsort] at hs hmems
    have hxl : x ∈ db.vectorIndex.map (fun p => (p.1, dist2 v p.2)) := by
      have hxs : x ∈ List.insertionSort nearOrd
          (db.vectorIndex.map (fun p => (p.1, dist2 v p.2))) := by
        rw [hsort]
        exact List.mem_cons_self x xs
      exact (List.mem_insertionSort nearOrd).mp hxs
    have hx2 : x.2 = 0 := by
      have hle : x.2 ≤ 0 := by
        rcases List.mem_cons.mp hmems with heq | hmem
        · rw [← heq]
        · rcases List.rel_of_sorted_cons hs _ hmem with hlt | ⟨heq, _⟩
          · exact le_of_lt hlt
          · exact le_of_eq heq
      have hge : (0 : Int) ≤ x.2 := by
        obtain ⟨p, hp, hpx⟩ := List.mem_map.mp hxl
        rw [← hpx]
        exact dist2_nonneg v p.2
      exact le_antisymm hle hge
    constructor
    · have hxsome : (get_node db x.1).isSome = true := by
        obtain ⟨p, hp, hpx⟩ := List.mem_map.mp hxl
        have hx1 : x.1 = p.1 := by rw [← hpx]
        rw [hx1]
        exact hres p hp
      obtain ⟨nx, hnx⟩ := Option.isSome_iff_exists.mp hxsome
      refine ⟨x.1, nx, ?_⟩
      rw [List.take_succ_cons]
      simp [List.filterMap_cons, hnx, hx2]
    · intro hmin
      have hminx : nearOrd (id, (0 : Int)) x := by
        obtain ⟨p, hp, hpx⟩ := List.mem_map.mp hxl
        rcases (dist2_nonneg v p.2).lt_or_eq with hlt | heq
        · left
          rw [← hpx]
          exact hlt
        · right
          rw [← hpx]
          exact ⟨heq, hmin p hp heq.symm⟩
      have hx : x = (id, (0 : Int)) := by
        rcases List.mem_cons.mp hmems with heq | hmem
        · exact heq.symm
        · exact nearOrd_antisymm x (id, 0) (List.rel_of_sorted_cons hs _ hmem) hminx
      subst hx
      rw [List.take_succ_cons]
      simp [List.filterMap_cons, hn]

/-- Witness for C3 (amended) on a concrete database: the distance-0 head
holds outright, and the tie-break proviso is discharged to identify it. -/
theorem C3_nearest_exact_match_witness :
    (∃ j m, (nearest_nodes exDB2 [1] 1).head? = some (j, m, 0)) ∧
    ((∀ p ∈ exDB2.vectorIndex, dist2 [1] p.2 = 0 → 0 ≤ p.1) →
      (nearest_nodes exDB2 [1] 1).head? = some (0, exNode1, 0)) :=
  C3_nearest_exact_match exDB2 0 exNode1 [1] 1 rfl rfl (by decide) (by decide) (by decide)

/-- Claim C4: `nearest_nodes` returns a sequence sorted ascending by
distance with ties broken by node identifier, containing exactly
`min limit (number of indexed vectors)` elements; when fewer than `limit`
vectors are indexed it returns all of them (one result per indexed
vector, at its exact distance) rather than an error. -/
theorem C4_nearest_ordered_count (db : GraphDB) (q : List Int) (limit : Nat)
    (hres : ∀ p ∈ db.vectorIndex, (get_node db p.1).isSome = true) :
    List.Sorted resOrd (nearest_nodes db q limit) ∧
    (nearest_nodes db q limit).length = min limit db.vectorIndex.length ∧
    (db.vectorIndex.length ≤ limit →
      ∀ p ∈ db.vectorIndex, ∃ nd, get_node db p.1 = some nd ∧
        (p.1, nd, dist2 q p.2) ∈ nearest_nodes db q limit) := by
  have hmemvi : ∀ y ∈ nearest db q limit,
      y ∈ db.vectorIndex.map (fun p => (p.1, dist2 q p.2)) := by
    intro y hy
    unfold nearest at hy
    exact (List.mem_insertionSort nearOrd).mp ((List.take_sublist _ _).mem hy)
  have hysome : ∀ y ∈ nearest db q limit,
      ((get_node db y.1).map (fun n => (y.1, n, y.2))).isSome = true := by
    intro y hy
    obtain ⟨p, hp, hpy⟩ := List.mem_map.mp (hmemvi y hy)
    rw [Option.isSome_map']
    rw [← hpy]
    exact hres p hp
  refine ⟨?_, ?_, ?_⟩
  · have hsorted := List.sorted_insertionSort nearOrd
      (db.vectorIndex.map (fun p => (p.1, dist2 q p.2)))
    have htake : List.Pairwise nearOrd (nearest db q limit) := by
      unfold nearest
      exact List.Pairwise.sublist (List.take_sublist _ _) hsorted
    unfold nearest_nodes
    exact pairwise_filterMap_rel _ nearOrd resOrd
      (by
        intro a b x y hr ha hb
        rw [Option.map_eq_some'] at ha hb
        obtain ⟨na, _, hax⟩ := ha
        obtain ⟨nb, _, hby⟩ := hb
        unfold nearOrd at hr
        unfold resOrd
        rw [← hax, ← hby]
        exact hr)
      (nearest db q limit) htake
  · unfold nearest_nodes
    rw [length_filterMap_all_some _ (nearest db q limit) hysome]
    unfold nearest
    rw [List.length_take, List.length_insertionSort, List.length_map]
  · intro hle p hp
    have hmem : (p.1, dist2 q p.2) ∈ nearest db q limit := by
      unfold nearest
      rw [List.take_of_length_le]
      · exact (List.mem_insertionSort nearOrd).mpr
          (List.mem_map.mpr ⟨p, hp, rfl⟩)
      · rw [List.length_insertionSort, List.length_map]
        exact hle
    obtain ⟨nd, hnd⟩ := Option.isSome_iff_exists.mp (hres p hp)
    refine ⟨nd, hnd, ?_⟩
    unfold nearest_nodes
    rw [List.mem_filterMap]
    exact ⟨(p.1, dist2 q p.2), hmem, by simp [hnd]⟩

/-- Witness for C4 on a concrete database with two indexed vectors and a
limit larger than the index. -/
theorem C4_nearest_ordered_count_witness :
    List.Sorted resOrd (nearest_nodes exDB2 [1] 5) ∧
    (nearest_nodes exDB2 [1] 5).length = min 5 exDB2.vectorIndex.length ∧
    (exDB2.vectorIndex.length ≤ 5 →
      ∀ p ∈ exDB2.vectorIndex, ∃ nd, get_node exDB2 p.1 = some nd ∧
        (p.1, nd, dist2 [1] p.2) ∈ nearest_nodes exDB2 [1] 5) :=
  C4_nearest_ordered_count exDB2 [1] 5 (by decide)

end GraphMemory
